import Mathlib

/-!
Verification development for the explain-with-cats repository.

The system has two pieces:
* `src/api/generate.ts`: an edge proxy `handler` that accepts a POST request
  with a JSON body carrying a `message`, calls the generative content API in
  streaming mode, and re-emits each response chunk as a server-sent-event
  line `data: <json>\n\n`, closing the stream after the last chunk.
* `src/index.tsx`: a client loop `generate` that reads the event stream,
  decodes each read chunk, splits it on blank-line delimiters, parses each
  `data: ` payload as JSON, and folds the parts of each parsed chunk into an
  accumulator state (caption text, pending image, slideshow), emitting a
  slide whenever both a caption and an image are available.

The embedding below is shallow: JavaScript strings are Lean `String`s (the
byte-level stream is modelled at character level, `List Char`, where chunk
partitioning matters), JSON.parse and the DOM are abstracted at the points
where the code only passes values through them, and thrown exceptions are
modelled with `Except` / explicit error constructors.
-/

namespace ExplainCats

/-! ## Proxy model (`src/api/generate.ts`) -/

/-- A thrown JavaScript value: either an `Error` with a message, or any
other value (`error instanceof Error` fails). -/
inductive Thrown where
  | error (msg : String)
  | other
deriving DecidableEq

/-- `error instanceof Error ? error.message : 'An unknown error occurred'` -/
def thrownMessage : Thrown → String
  | Thrown.error m => m
  | Thrown.other => "An unknown error occurred"

/-- The instruction suffix appended to the user message before the API call
(apostrophes written as \x27). -/
def additionalInstructions : String :=
  "\nUse a fun story about lots of tiny cats as a metaphor.\nKeep sentences short but conversational, casual, and engaging.\nGenerate a cute, minimal illustration for each sentence with black ink on white background.\nNo commentary, just begin your explanation.\nKeep going until you\x27re done."

/-- A JavaScript truthiness test for an optional string field: `undefined`
and the empty string are falsy. -/
def truthy : Option String → Bool
  | some s => !s.isEmpty
  | none => false

/-- An HTTP response produced by the handler: status, full body text, and
whether it is the `text/event-stream` streaming response. -/
structure Resp where
  status : Nat
  body : String
  isStream : Bool
deriving DecidableEq

/-- One server-sent event emitted by the proxy for one API response chunk
`c` (already serialized by `JSON.stringify`): `data: ` ++ c ++ blank-line
delimiter. -/
def sseEvent (c : String) : String :=
  "data: " ++ c ++ "\n\n"

/-- The full body of the proxy's streaming response: the `ReadableStream`
`start` loop enqueues `sseEvent c` for each API chunk `c` in order into the
controller, then closes. -/
def streamBody (chunks : List String) : String :=
  chunks.foldl (fun acc c => acc ++ sseEvent c) ""

/-- The 500 body `JSON.stringify({error: {message}})` (string escaping of
the message elided; braces written with \x7b/\x7d escapes). -/
def jsonErrorBody (m : String) : String :=
  "\x7b\"error\":\x7b\"message\":\"" ++ m ++ "\"\x7d\x7d"

/-- The proxy handler of `src/api/generate.ts`, instrumented with a count of
generative-API invocations (second component).

* `method` is `req.method`;
* `parsed` is the outcome of `await req.json()` followed by destructuring
  `{message}`: either a thrown parse error, or the optional `message` field;
* `api` is the generative content API (`ai.models.generateContentStream`,
  streaming mode): given the prompt it either throws or yields the finite
  list of response chunks, each already JSON-serialized.

Mirrors the source: non-POST short-circuits to 405 before the `try`; inside
the `try`, a falsy message short-circuits to 400; otherwise the API is
called once and its chunks are re-emitted as a server-sent-event stream;
the `catch` turns any throw into a 500 JSON error response. -/
def handler (method : String) (parsed : Except Thrown (Option String))
    (api : String → Except Thrown (List String)) : Resp × Nat :=
  if method ≠ "POST" then
    ({ status := 405, body := "Method Not Allowed", isStream := false }, 0)
  else
    match parsed with
    | Except.error e =>
        ({ status := 500, body := jsonErrorBody (thrownMessage e), isStream := false }, 0)
    | Except.ok message =>
        if truthy message then
          match api (message.getD "" ++ additionalInstructions) with
          | Except.error e =>
              ({ status := 500, body := jsonErrorBody (thrownMessage e), isStream := false }, 1)
          | Except.ok chunks =>
              ({ status := 200, body := streamBody chunks, isStream := true }, 1)
        else
          ({ status := 400, body := "Missing message in request body", isStream := false }, 0)

/-! ### Helper lemmas about the stream body -/

/-- The in-order concatenation of one server-sent event per API chunk. -/
def concatEvents : List String → String
  | [] => ""
  | c :: cs => sseEvent c ++ concatEvents cs

lemma streamBody_foldl (acc : String) (chunks : List String) :
    chunks.foldl (fun a c => a ++ sseEvent c) acc = acc ++ concatEvents chunks := by
  induction chunks generalizing acc with
  | nil => simp [concatEvents]
  | cons c cs ih =>
      simp only [List.foldl_cons, concatEvents, ih, String.append_assoc]

lemma streamBody_eq_concat (chunks : List String) :
    streamBody chunks = concatEvents chunks := by
  have h := streamBody_foldl "" chunks
  simpa [streamBody] using h

/-! ## Client stream model (`src/index.tsx`, `generate`)

The transport delivers the proxy's body as a sequence of read chunks
(`reader.read()`); the client decodes each chunk and splits it, on its own,
on the blank-line delimiter. Chunk splitting is modelled at character level
(`List Char`). -/

/-- JavaScript `s.split('\n\n')`: greedy leftmost split on the two-character
blank-line delimiter, keeping empty tokens (`''.split` gives `['']`). -/
def splitBlank : List Char → List (List Char)
  | [] => [[]]
  | '\n' :: '\n' :: rest => [] :: splitBlank rest
  | c :: rest =>
      match splitBlank rest with
      | t :: ts => (c :: t) :: ts
      | [] => [[c]]

/-- The characters of the `data: ` SSE field prefix. -/
def dataChars : List Char := ['d', 'a', 't', 'a', ':', ' ']

/-- JavaScript `line.startsWith('data: ')`. -/
def startsWithData (l : List Char) : Bool :=
  decide (l.take 6 = dataChars)

/-- The lines the client keeps from one read chunk:
`chunkString.split('\n\n').filter(line => line.startsWith('data: '))`. -/
def chunkLines (c : List Char) : List (List Char) :=
  (splitBlank c).filter (fun l => startsWithData l)

/-- The JSON payload the client extracts from a kept line:
`line.replace('data: ', '')`. Since every kept line starts with `data: `,
the first occurrence removed by `replace` is the 6-character prefix. -/
def payloadOf (l : List Char) : List Char := l.drop 6

/-- All JSON payload strings the client loop extracts from a sequence of
read chunks, in processing order. -/
def clientExtract (readChunks : List (List Char)) : List (List Char) :=
  (readChunks.map (fun c => (chunkLines c).map payloadOf)).flatten

/-- The character stream of the proxy's body for a list of (serialized)
chunk payloads: `data: ` ++ payload ++ blank-line delimiter, each in order
(the `List Char` counterpart of `streamBody`). -/
def sseBodyChars (payloads : List (List Char)) : List Char :=
  (payloads.map (fun p => dataChars ++ p ++ ['\n', '\n'])).flatten

/-! ## Client accumulator model (`src/index.tsx`, parts loop) -/

/-- `part.inlineData`: its `data` field may itself be absent. -/
structure InlineData where
  data : Option String
deriving DecidableEq

/-- One part of a candidate's content: an optional text fragment and an
optional inline image record. -/
structure Part where
  text : Option String
  inlineData : Option InlineData
deriving DecidableEq

/-- `candidate.content`: the `parts` array may be missing
(`candidate.content.parts ?? []`). -/
structure Content where
  parts : Option (List Part)
deriving DecidableEq

/-- One candidate of a parsed stream chunk. -/
structure Candidate where
  content : Content
deriving DecidableEq

/-- A parsed stream chunk: a record with an iterable `candidates` field. -/
structure Chunk where
  candidates : List Candidate
deriving DecidableEq

/-- The client loop's mutable state: the accumulated caption text `text`,
the pending image `img` (the `src` string of the created `<img>` element, or
`none`), and the slideshow as the list of appended (caption, image src)
slides. -/
structure ClientState where
  text : String
  img : Option String
  slides : List (String × String)
deriving DecidableEq

/-- `part.inlineData?.data` (optional chaining). -/
def inlineDataOf (p : Part) : Option String :=
  match p.inlineData with
  | some i => i.data
  | none => none

/-- The `src` given to the created image element for base64 data `d`. -/
def imgSrc (d : String) : String :=
  "data:image/png;base64," ++ d

/-- The fragment-accumulation step for one part, before the emission check:
`if (part.text) text += part.text; else if (part.inlineData?.data) img = <new image>`. -/
def applyFragment (s : ClientState) (p : Part) : ClientState :=
  if truthy p.text then
    { s with text := s.text ++ p.text.getD "" }
  else if truthy (inlineDataOf p) then
    { s with img := some (imgSrc ((inlineDataOf p).getD "")) }
  else
    s

/-- The emission check run after the fragment update of each part:
`if (text && img) { await addSlide(text, img); text = ''; img = null; }`,
where `addSlide` appends one slide to the slideshow. -/
def emitCheck (s1 : ClientState) : ClientState :=
  if !s1.text.isEmpty && s1.img.isSome then
    { text := "", img := none, slides := s1.slides ++ [(s1.text, s1.img.getD "")] }
  else
    s1

/-- Processing one part: the fragment update followed by the emission
check. -/
def processPart (s : ClientState) (p : Part) : ClientState :=
  emitCheck (applyFragment s p)

/-- Processing a list of parts in order. -/
def processParts (ps : List Part) (s : ClientState) : ClientState :=
  ps.foldl processPart s

/-- Processing one parsed chunk: the two nested loops over
`chunk.candidates` and `candidate.content.parts ?? []`. -/
def processChunk (s : ClientState) (c : Chunk) : ClientState :=
  c.candidates.foldl (fun s cand => (cand.content.parts.getD []).foldl processPart s) s

/-- Processing one kept `data: ` line, where `d` models
`JSON.parse` combined with the iterability of `chunk.candidates`: `none`
means the `try` body threw before any part was processed (invalid JSON, or
a parsed value without an iterable `candidates`), which the `catch` turns
into a logged no-op. -/
def processLine (d : List Char → Option Chunk) (s : ClientState) (line : List Char) : ClientState :=
  match d (payloadOf line) with
  | some ch => processChunk s ch
  | none => s

/-- Processing one read chunk: split, filter, then the line loop. -/
def processReadChunk (d : List Char → Option Chunk) (s : ClientState) (c : List Char) : ClientState :=
  (chunkLines c).foldl (processLine d) s

/-- The whole client read loop over the stream's read chunks. -/
def processStream (d : List Char → Option Chunk) (readChunks : List (List Char))
    (s : ClientState) : ClientState :=
  readChunks.foldl (processReadChunk d) s

/-- The text contributed by one part to the caption accumulator. -/
def textContribution (p : Part) : String :=
  if truthy p.text then p.text.getD "" else ""

/-- The in-order concatenation of the text fragments of a list of parts. -/
def textsOf : List Part → String
  | [] => ""
  | p :: ps => textContribution p ++ textsOf ps

/-! ### Helper lemmas about the accumulator -/

lemma isEmpty_false_of_ne (s : String) (h : s ≠ "") : s.isEmpty = false := by
  have hi := String.isEmpty_iff s
  rcases hb : s.isEmpty with _ | _
  · rfl
  · exact absurd (hi.mp (by simp [hb])) h

lemma ne_of_isEmpty_false (s : String) (h : s.isEmpty = false) : s ≠ "" := by
  intro he
  subst he
  exact absurd h (by decide)

lemma emitCheck_pos (s1 : ClientState) (ht : s1.text ≠ "") (hi : s1.img.isSome = true) :
    emitCheck s1 =
      { text := "", img := none, slides := s1.slides ++ [(s1.text, s1.img.getD "")] } := by
  unfold emitCheck
  rw [isEmpty_false_of_ne s1.text ht, hi]
  rfl

lemma emitCheck_neg (s1 : ClientState) (h : ¬(s1.text ≠ "" ∧ s1.img.isSome = true)) :
    emitCheck s1 = s1 := by
  unfold emitCheck
  have hb : (!s1.text.isEmpty && s1.img.isSome) = false := by
    rcases hb1 : s1.text.isEmpty with _ | _
    · rcases hb2 : s1.img.isSome with _ | _
      · rfl
      · exact absurd ⟨ne_of_isEmpty_false s1.text hb1, hb2⟩ h
    · rfl
  rw [hb]
  rfl

lemma emitCheck_cases (s1 : ClientState) :
    emitCheck s1 = s1 ∨
      emitCheck s1 =
        { text := "", img := none, slides := s1.slides ++ [(s1.text, s1.img.getD "")] } := by
  by_cases h : s1.text ≠ "" ∧ s1.img.isSome = true
  · exact Or.inr (emitCheck_pos s1 h.1 h.2)
  · exact Or.inl (emitCheck_neg s1 h)

lemma applyFragment_slides (s : ClientState) (p : Part) :
    (applyFragment s p).slides = s.slides := by
  unfold applyFragment
  split
  · rfl
  · split <;> rfl

lemma applyFragment_img (s : ClientState) (p : Part) :
    (applyFragment s p).img = s.img ∨
      (applyFragment s p).img = some (imgSrc ((inlineDataOf p).getD "")) := by
  unfold applyFragment
  split
  · exact Or.inl rfl
  · split
    · exact Or.inr rfl
    · exact Or.inl rfl

lemma applyFragment_text (s : ClientState) (p : Part) :
    (applyFragment s p).text = s.text ++ textContribution p := by
  unfold applyFragment textContribution
  split
  · rfl
  · split <;> simp [String.append_empty]

lemma processParts_nil (s : ClientState) : processParts [] s = s := rfl

lemma processParts_cons (p : Part) (ps : List Part) (s : ClientState) :
    processParts (p :: ps) s = processParts ps (processPart s p) := rfl

lemma processParts_append (xs ys : List Part) (s : ClientState) :
    processParts (xs ++ ys) s = processParts ys (processParts xs s) := by
  simp [processParts, List.foldl_append]

lemma processPart_slides (s : ClientState) (p : Part) :
    ∃ n, (processPart s p).slides = s.slides ++ n := by
  unfold processPart
  rcases emitCheck_cases (applyFragment s p) with h | h
  · exact ⟨[], by rw [h, applyFragment_slides, List.append_nil]⟩
  · exact ⟨[((applyFragment s p).text, (applyFragment s p).img.getD "")],
      by rw [h]; simp [applyFragment_slides]⟩

lemma processParts_slides (ps : List Part) (s : ClientState) :
    ∃ n, (processParts ps s).slides = s.slides ++ n := by
  induction ps generalizing s with
  | nil => exact ⟨[], by simp [processParts_nil]⟩
  | cons p ps ih =>
      obtain ⟨n₁, h₁⟩ := processPart_slides s p
      obtain ⟨n₂, h₂⟩ := ih (processPart s p)
      exact ⟨n₁ ++ n₂, by rw [processParts_cons, h₂, h₁, List.append_assoc]⟩

lemma processPart_of_slides_eq (s : ClientState) (p : Part)
    (h : (processPart s p).slides = s.slides) : processPart s p = applyFragment s p := by
  unfold processPart at *
  rcases emitCheck_cases (applyFragment s p) with hc | hc
  · exact hc
  · exfalso
    rw [hc] at h
    simp only [applyFragment_slides] at h
    have := congrArg List.length h
    simp at this

lemma processParts_text_of_no_emit (ps : List Part) (s : ClientState)
    (h : (processParts ps s).slides = s.slides) :
    (processParts ps s).text = s.text ++ textsOf ps := by
  induction ps generalizing s with
  | nil => simp [processParts_nil, textsOf, String.append_empty]
  | cons p ps ih =>
      rw [processParts_cons] at h ⊢
      obtain ⟨n₁, h₁⟩ := processPart_slides s p
      obtain ⟨n₂, h₂⟩ := processParts_slides ps (processPart s p)
      rw [h₂, h₁, List.append_assoc] at h
      obtain ⟨hn₁, hn₂⟩ : n₁ = [] ∧ n₂ = [] := by simpa using h
      have hstep : processPart s p = applyFragment s p :=
        processPart_of_slides_eq s p (by rw [h₁, hn₁, List.append_nil])
      have hslides : (processParts ps (processPart s p)).slides = (processPart s p).slides := by
        rw [h₂, hn₂, List.append_nil]
      rw [ih (processPart s p) hslides, hstep, applyFragment_text, textsOf,
        String.append_assoc]

/-! ## Claim theorems -/

/-- Claim C1: in the client's part loop, a slide is appended exactly at
those parts after whose fragment update both the accumulated caption text
is non-empty and a pending image exists; the emitted slide carries that
non-empty caption and the pending image, and immediately afterwards the
caption accumulator is reset to the empty string and the pending image to
`none`; at every other part the slideshow is unchanged. -/
theorem c1_slide_emission (s : ClientState) (p : Part) :
    ((applyFragment s p).text ≠ "" ∧ (applyFragment s p).img.isSome = true →
      processPart s p =
        { text := "", img := none,
          slides := s.slides ++ [((applyFragment s p).text, (applyFragment s p).img.getD "")] })
  ∧ (¬((applyFragment s p).text ≠ "" ∧ (applyFragment s p).img.isSome = true) →
      processPart s p = applyFragment s p ∧ (processPart s p).slides = s.slides) := by
  constructor
  · intro ⟨ht, hi⟩
    unfold processPart
    rw [emitCheck_pos (applyFragment s p) ht hi, applyFragment_slides]
  · intro hn
    unfold processPart
    rw [emitCheck_neg (applyFragment s p) hn]
    exact ⟨rfl, applyFragment_slides s p⟩

/-- Claim C1 witness: a concrete image part completing a pending caption
emits the slide and resets the accumulators. -/
theorem c1_slide_emission_witness :
    processPart ⟨"a", none, []⟩ ⟨none, some ⟨some "B"⟩⟩ =
      { text := "", img := none, slides := [("a", imgSrc "B")] } := by
  have h := (c1_slide_emission ⟨"a", none, []⟩ ⟨none, some ⟨some "B"⟩⟩).1 (by decide)
  exact h.trans (by decide)

/-- Claim C4: parts are processed in arrival order — processing a
concatenation of fragment lists is processing the first then the second;
the slideshow only grows at the end, preserving arrival order of completing
fragments; and while no slide is emitted the caption accumulator equals the
previous text followed by the in-order concatenation of the text fragments
processed, so each emitted slide's caption is the in-order concatenation of
the text fragments since the previous emission (emission resets the
accumulator to empty by `c1`). -/
theorem c4_arrival_order (ps : List Part) (s : ClientState) :
    (∀ xs ys, ps = xs ++ ys → processParts ps s = processParts ys (processParts xs s))
  ∧ (∃ new, (processParts ps s).slides = s.slides ++ new)
  ∧ ((processParts ps s).slides = s.slides →
      (processParts ps s).text = s.text ++ textsOf ps) := by
  refine ⟨?_, processParts_slides ps s, processParts_text_of_no_emit ps s⟩
  intro xs ys hxy
  rw [hxy, processParts_append]

/-- Claim C4 witness: two text fragments accumulate in arrival order from
the empty state. -/
theorem c4_arrival_order_witness :
    (processParts [⟨some "ab", none⟩, ⟨some "cd", none⟩] ⟨"", none, []⟩).text =
      "" ++ textsOf [⟨some "ab", none⟩, ⟨some "cd", none⟩] := by
  have h := (c4_arrival_order [⟨some "ab", none⟩, ⟨some "cd", none⟩] ⟨"", none, []⟩).2.2
  exact h (by decide)

/-- Claim C5: slides are immutable once rendered — processing any further
list of parts leaves every slide already in the slideshow unchanged (the
old slideshow is a prefix of the new one) and only appends new slides after
the existing ones. -/
theorem c5_slides_immutable (s : ClientState) (ps : List Part) :
    (processParts ps s).slides.take s.slides.length = s.slides
  ∧ ∃ new, (processParts ps s).slides = s.slides ++ new := by
  obtain ⟨new, hnew⟩ := processParts_slides ps s
  refine ⟨?_, new, hnew⟩
  rw [hnew, List.take_left]

/-- Claim C2: for every successful POST request with a non-empty message,
the handler calls the generative content API exactly once (invocation count
1), in streaming mode, and the streaming response it returns has status 200
and a body that is exactly the in-order concatenation, one per API response
chunk, of `data: ` followed by the chunk's JSON serialization followed by
the blank-line delimiter; the stream is closed after the last chunk (the
body is exactly this finite concatenation and nothing follows it). -/
theorem c2_stream_passthrough (msg : String) (hm : msg ≠ "")
    (api : String → Except Thrown (List String)) (chunks : List String)
    (hapi : api (msg ++ additionalInstructions) = Except.ok chunks) :
    handler "POST" (Except.ok (some msg)) api =
      ({ status := 200, body := concatEvents chunks, isStream := true }, 1)
  ∧ (∀ c, sseEvent c = "data: " ++ c ++ "\n\n") := by
  refine ⟨?_, fun c => rfl⟩
  have ht : truthy (some msg) = true := by
    simp [truthy, isEmpty_false_of_ne msg hm]
  simp [handler, ht, hapi, streamBody_eq_concat]

/-- Claim C2 witness: a concrete successful POST with two API chunks. -/
theorem c2_stream_passthrough_witness :
    handler "POST" (Except.ok (some "hi")) (fun _ => Except.ok ["a", "b"]) =
      ({ status := 200, body := concatEvents ["a", "b"], isStream := true }, 1) :=
  (c2_stream_passthrough "hi" (by decide) (fun _ => Except.ok ["a", "b"]) ["a", "b"] rfl).1

/-- Claim C7: the proxy surfaces failures as errors — when request-body
parsing throws, or the generative API call throws, the handler returns
status 500 with the JSON body carrying the error's message (the thrown
value's `message` when it is an `Error`, the fixed unknown-error text
otherwise) and no event stream; parse failures never reach the API (count
0), API failures follow the single call (count 1). -/
theorem c7_error_surfacing (t : Thrown) (api : String → Except Thrown (List String))
    (msg : Option String) :
    (handler "POST" (Except.error t) api =
      ({ status := 500, body := jsonErrorBody (thrownMessage t), isStream := false }, 0))
  ∧ (truthy msg = true → api (msg.getD "" ++ additionalInstructions) = Except.error t →
      handler "POST" (Except.ok msg) api =
        ({ status := 500, body := jsonErrorBody (thrownMessage t), isStream := false }, 1))
  ∧ thrownMessage Thrown.other = "An unknown error occurred"
  ∧ (∀ m, thrownMessage (Thrown.error m) = m) := by
  refine ⟨?_, ?_, rfl, fun m => rfl⟩
  · simp [handler]
  · intro ht hapi
    simp [handler, ht, hapi]

/-- Claim C7 witness: a concrete POST whose API call throws a non-Error
value yields the 500 JSON body with the unknown-error message. -/
theorem c7_error_surfacing_witness :
    handler "POST" (Except.ok (some "x")) (fun _ => Except.error Thrown.other) =
      ({ status := 500, body := jsonErrorBody "An unknown error occurred",
         isStream := false }, 1) := by
  have h := (c7_error_surfacing Thrown.other (fun _ => Except.error Thrown.other)
    (some "x")).2.1 (by decide) rfl
  exact h.trans (by decide)

/-- Claim C8: a non-POST request gets 405 `Method Not Allowed`; a POST
whose parsed body lacks a truthy `message` gets 400
`Missing message in request body`; in both cases the generative API is
never called (invocation count 0). -/
theorem c8_method_and_missing_message (method : String)
    (parsed : Except Thrown (Option String))
    (api : String → Except Thrown (List String)) (msg : Option String) :
    (method ≠ "POST" →
      handler method parsed api =
        ({ status := 405, body := "Method Not Allowed", isStream := false }, 0))
  ∧ (truthy msg = false →
      handler "POST" (Except.ok msg) api =
        ({ status := 400, body := "Missing message in request body", isStream := false }, 0)) := by
  constructor
  · intro h
    simp [handler, h]
  · intro h
    simp [handler, h]

/-- Claim C8 witness: a concrete GET request and a concrete POST with a
missing message field. -/
theorem c8_method_and_missing_message_witness :
    handler "GET" (Except.ok (some "x")) (fun _ => Except.ok []) =
      ({ status := 405, body := "Method Not Allowed", isStream := false }, 0)
  ∧ handler "POST" (Except.ok none) (fun _ => Except.ok []) =
      ({ status := 400, body := "Missing message in request body", isStream := false }, 0) :=
  ⟨(c8_method_and_missing_message "GET" (Except.ok (some "x")) (fun _ => Except.ok []) none).1
      (by decide),
   (c8_method_and_missing_message "POST" (Except.ok none) (fun _ => Except.ok []) none).2 rfl⟩

/-- Claim C6: a well-formed chunk whose candidates all have zero parts or a
missing parts array is processed totally and without effect: the caption
accumulator, the pending image, and the slideshow are all unchanged. -/
theorem c6_zero_parts (s : ClientState) (c : Chunk)
    (h : ∀ cand ∈ c.candidates, cand.content.parts = none ∨ cand.content.parts = some []) :
    processChunk s c = s := by
  rcases c with ⟨cands⟩
  unfold processChunk
  simp only
  induction cands with
  | nil => rfl
  | cons cd rest ih =>
      have hcd := h cd (by simp)
      have hrest : ∀ x ∈ rest, x.content.parts = none ∨ x.content.parts = some [] :=
        fun x hx => h x (by simp [hx])
      simp only [List.foldl_cons]
      have hstep : (cd.content.parts.getD []).foldl processPart s = s := by
        rcases hcd with h1 | h1 <;> rw [h1] <;> rfl
      rw [hstep]
      exact ih hrest

/-- Claim C6 witness: a concrete chunk with one parts-less candidate and one
zero-parts candidate leaves a concrete state untouched. -/
theorem c6_zero_parts_witness :
    processChunk ⟨"t", some "i", [("a", "b")]⟩ ⟨[⟨⟨none⟩⟩, ⟨⟨some []⟩⟩]⟩ =
      ⟨"t", some "i", [("a", "b")]⟩ :=
  c6_zero_parts ⟨"t", some "i", [("a", "b")]⟩ ⟨[⟨⟨none⟩⟩, ⟨⟨some []⟩⟩]⟩ (by decide)

/-- Claim C9: a `data: ` line whose payload fails to parse (invalid JSON, or
no iterable `candidates`) is a caught no-op: the state — caption text,
pending image, slideshow — is unchanged, and the loop continues with the
remaining lines exactly as if the malformed line were absent. -/
theorem c9_malformed_payload (d : List Char → Option Chunk) (s : ClientState)
    (line : List Char) (rest : List (List Char)) (h : d (payloadOf line) = none) :
    processLine d s line = s
  ∧ (line :: rest).foldl (processLine d) s = rest.foldl (processLine d) s
  ∧ (∀ cs, processStream d cs (processLine d s line) = processStream d cs s) := by
  have h1 : processLine d s line = s := by simp [processLine, h]
  exact ⟨h1, by simp [List.foldl_cons, h1], fun cs => by rw [h1]⟩

/-- Claim C9 witness: a concrete malformed line under an always-failing
parse leaves a concrete state unchanged. -/
theorem c9_malformed_payload_witness :
    processLine (fun _ => none) ⟨"a", none, []⟩ ['x'] = ⟨"a", none, []⟩ :=
  (c9_malformed_payload (fun _ => none) ⟨"a", none, []⟩ ['x'] [['y']] rfl).1

/-! ### Image-part helpers for claim C10 -/

/-- A part carrying only a base64 image fragment. -/
def imagePart (d : String) : Part := ⟨none, some ⟨some d⟩⟩

/-- A part carrying only a text fragment. -/
def textPart (t : String) : Part := ⟨some t, none⟩

lemma processPart_imagePart (s : ClientState) (d : String) (h : s.text = "") :
    processPart s (imagePart d) =
      if d.isEmpty then s else { s with img := some (imgSrc d) } := by
  unfold processPart
  rcases hd : d.isEmpty with _ | _
  · have ha : applyFragment s (imagePart d) = { s with img := some (imgSrc d) } := by
      simp [applyFragment, imagePart, truthy, inlineDataOf, hd]
    rw [ha, emitCheck_neg { s with img := some (imgSrc d) } (fun hc => hc.1 h)]
    simp
  · have ha : applyFragment s (imagePart d) = s := by
      simp [applyFragment, imagePart, truthy, inlineDataOf, hd]
    rw [ha, emitCheck_neg s (fun hc => hc.1 h)]
    simp

lemma processParts_imageParts_last (ds : List String) (d : String) (s : ClientState)
    (h : s.text = "") (hd : d.isEmpty = false) :
    processParts ((ds ++ [d]).map imagePart) s = { s with img := some (imgSrc d) } := by
  rcases s with ⟨st, si, ss⟩
  dsimp at h
  subst h
  induction ds generalizing si with
  | nil =>
      simp only [List.nil_append, List.map_cons, List.map_nil]
      rw [processParts_cons, processParts_nil, processPart_imagePart ⟨"", si, ss⟩ d rfl, hd]
      simp
  | cons d' ds ih =>
      simp only [List.cons_append, List.map_cons]
      rw [processParts_cons, processPart_imagePart ⟨"", si, ss⟩ d' rfl]
      rcases hd' : d'.isEmpty with _ | _
      · simpa using ih (some (imgSrc d'))
      · simpa using ih si

/-- Claim C10: image fragments are replaced, not accumulated. While the
caption accumulator is empty, a non-empty image fragment overwrites the
pending image outright; a run of image fragments ending in `d` leaves
exactly `d`'s image pending, every earlier pending image discarded; and the
next slide completed by a text fragment `t` carries only `d`'s image. -/
theorem c10_image_replacement (s : ClientState) (h : s.text = "") (ds : List String)
    (d : String) (hd : d ≠ "") :
    processPart s (imagePart d) = { s with img := some (imgSrc d) }
  ∧ processParts ((ds ++ [d]).map imagePart) s = { s with img := some (imgSrc d) }
  ∧ (∀ t, t ≠ "" →
      processParts (((ds ++ [d]).map imagePart) ++ [textPart t]) s =
        { text := "", img := none, slides := s.slides ++ [(t, imgSrc d)] }) := by
  have hde : d.isEmpty = false := isEmpty_false_of_ne d hd
  refine ⟨?_, processParts_imageParts_last ds d s h hde, ?_⟩
  · rw [processPart_imagePart s d h, hde]
    simp
  · intro t ht
    rw [processParts_append, processParts_imageParts_last ds d s h hde,
      processParts_cons, processParts_nil]
    unfold processPart
    have ha : applyFragment { s with img := some (imgSrc d) } (textPart t) =
        { s with text := s.text ++ t, img := some (imgSrc d) } := by
      simp [applyFragment, textPart, truthy, isEmpty_false_of_ne t ht]
    rw [ha]
    have ht' : ({ s with text := s.text ++ t, img := some (imgSrc d) } : ClientState).text ≠ "" := by
      dsimp
      rw [h, String.empty_append]
      exact ht
    rw [emitCheck_pos _ ht' rfl]
    dsimp
    rw [h, String.empty_append]

/-- Claim C10 witness: two concrete image fragments followed by a text
fragment yield one slide carrying only the second image. -/
theorem c10_image_replacement_witness :
    processParts ((["A"] ++ ["B"]).map imagePart ++ [textPart "t"]) ⟨"", none, []⟩ =
      { text := "", img := none, slides := [("t", imgSrc "B")] } := by
  have h := (c10_image_replacement ⟨"", none, []⟩ rfl ["A"] "B" (by decide)).2.2 "t" (by decide)
  exact h.trans (by decide)

/-! ### Stream splitting lemmas for claim C3 -/

/-- The proxy's `String`-level body and the character-level body agree. -/
lemma streamBody_data (chunks : List String) :
    (streamBody chunks).data = sseBodyChars (chunks.map String.data) := by
  rw [streamBody_eq_concat]
  induction chunks with
  | nil => rfl
  | cons c cs ih =>
      have hd : ("data: " : String).data = dataChars := by decide
      have hn : ("\n\n" : String).data = ['\n', '\n'] := by decide
      simp only [concatEvents, sseEvent, String.data_append, List.map_cons, sseBodyChars,
        List.flatten_cons, hd, hn]
      simp only [sseBodyChars] at ih
      rw [ih]
      simp [List.append_assoc, dataChars]

lemma splitBlank_no_newline (l rest : List Char) (h : ∀ c ∈ l, c ≠ '\n') :
    splitBlank (l ++ '\n' :: '\n' :: rest) = l :: splitBlank rest := by
  induction l with
  | nil => simp [splitBlank]
  | cons c cs ih =>
      have hc : c ≠ '\n' := h c (by simp)
      have hcs : ∀ x ∈ cs, x ≠ '\n' := fun x hx => h x (by simp [hx])
      have ihx := ih hcs
      rw [List.cons_append, splitBlank.eq_def]
      split
      · simp_all
      · rename_i heq
        exfalso
        rw [List.cons_eq_cons] at heq
        exact hc heq.1
      · rename_i heq
        rw [List.cons_eq_cons] at heq
        obtain ⟨h1, h2⟩ := heq
        subst h1
        subst h2
        rw [ihx]

lemma sseBodyChars_cons (p : List Char) (ps : List (List Char)) :
    sseBodyChars (p :: ps) = (dataChars ++ p) ++ '\n' :: '\n' :: sseBodyChars ps := by
  simp [sseBodyChars, List.append_assoc]

lemma splitBlank_sseBody (seg : List (List Char)) (h : ∀ p ∈ seg, ∀ c ∈ p, c ≠ '\n') :
    splitBlank (sseBodyChars seg) = (seg.map (fun p => dataChars ++ p)) ++ [[]] := by
  induction seg with
  | nil => simp [sseBodyChars, splitBlank]
  | cons p ps ih =>
      have hdc : ∀ c ∈ dataChars, c ≠ '\n' := by decide
      have hp : ∀ c ∈ dataChars ++ p, c ≠ '\n' := by
        intro c hcm
        rcases List.mem_append.mp hcm with hm | hm
        · exact hdc c hm
        · exact h p (by simp) c hm
      rw [sseBodyChars_cons, splitBlank_no_newline _ _ hp,
        ih (fun q hq => h q (by simp [hq]))]
      simp

lemma take_dataChars (p : List Char) : (dataChars ++ p).take 6 = dataChars := by
  have h6 : (6 : Nat) = dataChars.length := by decide
  rw [h6, List.take_left]

lemma chunkLines_sseBody (seg : List (List Char)) (h : ∀ p ∈ seg, ∀ c ∈ p, c ≠ '\n') :
    chunkLines (sseBodyChars seg) = seg.map (fun p => dataChars ++ p) := by
  rw [chunkLines, splitBlank_sseBody seg h, List.filter_append]
  have h1 : (seg.map (fun p => dataChars ++ p)).filter (fun l => startsWithData l) =
      seg.map (fun p => dataChars ++ p) := by
    apply List.filter_eq_self.mpr
    intro a ha
    obtain ⟨p, _, hp⟩ := List.mem_map.mp ha
    subst hp
    simp [startsWithData, take_dataChars]
  have h2 : ([[]] : List (List Char)).filter (fun l => startsWithData l) = [] := by decide
  rw [h1, h2, List.append_nil]

lemma extract_sseBody (seg : List (List Char)) (h : ∀ p ∈ seg, ∀ c ∈ p, c ≠ '\n') :
    (chunkLines (sseBodyChars seg)).map payloadOf = seg := by
  rw [chunkLines_sseBody seg h, List.map_map]
  have : (payloadOf ∘ fun p => dataChars ++ p) = fun p : List Char => p := by
    funext p
    have h6 : (6 : Nat) = dataChars.length := by decide
    simp only [Function.comp, payloadOf, h6, List.drop_left]
  rw [this]
  simp

/-- Claim C3 counterexample: the two-read-chunk partition
`["data: ", "7\n\n"]` of the proxy stream for the single payload `7` makes
the client lose the event: the split of the first chunk yields the bare
`data: ` line whose empty payload is not the event's payload, and the
second chunk contains no `data: ` line at all — while the unpartitioned
stream parses to exactly the payload. So the claim, quantified over every
partition of the byte stream, is false. -/
theorem c3_partition_counterexample :
    [['d', 'a', 't', 'a', ':', ' '], ['7', '\n', '\n']].flatten = sseBodyChars [['7']]
  ∧ clientExtract [['d', 'a', 't', 'a', ':', ' '], ['7', '\n', '\n']] ≠ [['7']]
  ∧ clientExtract [sseBodyChars [['7']]] = [['7']] := by
  refine ⟨by decide, by decide, by decide⟩

/-- Claim C3 (amended): when the transport partitions the proxy's event
stream on event boundaries — every read chunk is a whole-event run — and no
payload contains a newline character (true of `JSON.stringify` output), the
client loop recovers every event's payload, in order, with none lost or
left unparsed. For partitions that cut through an event, the payloads of
the cut event can be lost (see the counterexample). -/
theorem c3_aligned_partition (segs : List (List (List Char)))
    (h : ∀ seg ∈ segs, ∀ p ∈ seg, ∀ c ∈ p, c ≠ '\n') :
    clientExtract (segs.map sseBodyChars) = segs.flatten
  ∧ (segs.map sseBodyChars).flatten = sseBodyChars segs.flatten := by
  constructor
  · unfold clientExtract
    rw [List.map_map]
    have hmap : segs.map ((fun c => (chunkLines c).map payloadOf) ∘ sseBodyChars) =
        segs.map (fun seg => seg) := by
      apply List.map_congr_left
      intro seg hseg
      exact extract_sseBody seg (h seg hseg)
    rw [hmap]
    simp
  · induction segs with
    | nil => rfl
    | cons seg rest ih =>
        have hrest : ∀ s ∈ rest, ∀ p ∈ s, ∀ c ∈ p, c ≠ '\n' :=
          fun s hs => h s (by simp [hs])
        simp only [List.map_cons, List.flatten_cons, ih hrest, sseBodyChars,
          List.map_append, List.flatten_append]

/-- Claim C3 (amended) witness: two aligned read chunks carrying three
events are parsed to exactly the three payloads. -/
theorem c3_aligned_partition_witness :
    clientExtract ([[['7']], [['8'], ['9']]].map sseBodyChars) = [['7'], ['8'], ['9']] := by
  have h := (c3_aligned_partition [[['7']], [['8'], ['9']]] (by decide)).1
  exact h.trans (by decide)

end ExplainCats
